import Mathlib

/-!
Shallow embedding of the track-metadata reconciliation logic of the
music-downloader repository (src/app.py and src/app_new.py), together with
proofs settling the claims about it.

The Python string/regex primitives are modelled character-exactly for the
ASCII fragment the code manipulates:
  - re whitespace class and str.strip whitespace are the six ASCII space
    characters;
  - a word character (re word class) is an ASCII letter, digit or underscore;
  - str.lower maps ASCII upper-case letters to lower case.
Each re.sub call is modelled by a left-to-right scanner that, at every
position, either removes a leftmost match (continuing after it, as re.sub
does) or emits one character and advances, exactly the CPython semantics for
the concrete patterns appearing in the source (none of which needs
backtracking, as argued at each matcher).
-/

namespace MusicDL

/-- Model of the Python re whitespace class and of str.strip whitespace
(ASCII fragment). -/
def pyIsSpace (c : Char) : Bool :=
  c = ' ' || c = '\t' || c = '\n' || c = '\r' || c = '\x0b' || c = '\x0c'

/-- Model of the Python re word-character class (ASCII fragment): letters,
digits and the underscore. -/
def isWordChar (c : Char) : Bool :=
  c.isAlphanum || c = '_'

/-- Model of str.lower on a character list (ASCII). -/
def pyLower (l : List Char) : List Char :=
  l.map Char.toLower

/-- Case-insensitive literal prefix test: the scanned text, lowered, starts
with the given (already lower-case) pattern. Models an IGNORECASE literal. -/
def ciPrefix (pat : List Char) (s : List Char) : Bool :=
  (s.take pat.length).map Char.toLower == pat

/-- Distance to the first occurrence of the closing character, failing at a
newline: models the lazy dot-star of the patterns, where the dot does not
match a newline. -/
def findStop (stop : Char) : List Char → Option Nat
  | [] => none
  | c :: t =>
    if c = stop then some 0
    else if c = '\n' then none
    else (findStop stop t).map (· + 1)

/-- Distance to the first occurrence of the closing character, newline
allowed: models a greedy negated character class running to the closer. -/
def findStopNl (stop : Char) : List Char → Option Nat
  | [] => none
  | c :: t =>
    if c = stop then some 0
    else (findStopNl stop t).map (· + 1)

/-- Global re.sub scanner with fuel. The matcher returns the length of a
(nonempty) leftmost match starting at the current position; on a match the
scanner deletes it and continues after it, otherwise it emits one character
and advances, exactly as re.sub with an empty replacement. -/
def pySubScanAux (m : List Char → Option Nat) : Nat → List Char → List Char
  | _, [] => []
  | 0, l => l
  | fuel + 1, c :: cs =>
    match m (c :: cs) with
    | some n => pySubScanAux m fuel (cs.drop (n - 1))
    | none => c :: pySubScanAux m fuel cs

/-- Global re.sub with empty replacement: every pattern in the source
consumes at least one character per match, so length-many steps suffice. -/
def pySubScan (m : List Char → Option Nat) (l : List Char) : List Char :=
  pySubScanAux m l.length l

/-- Matcher for the app_new pattern removing feat segments: optional
whitespace, a literal open paren, the case-insensitive literal feat-dot, a
lazy body, and the closing paren. Greedy whitespace needs no backtracking: a
shorter space run leaves a space where the open paren is required. -/
def matchFeatNew (s : List Char) : Option Nat :=
  let sp := (s.takeWhile pyIsSpace).length
  match s.dropWhile pyIsSpace with
  | [] => none
  | c :: r1 =>
    if c = '(' then
      if ciPrefix ("feat.".data) r1 then
        match findStop (')') (r1.drop 5) with
        | some b => some (sp + 1 + 5 + b + 1)
        | none => none
      else none
    else none

/-- Matcher for the app.py feat pattern: literal open paren, case-insensitive
feat-dot-space literal, lazy body, closing paren; no leading whitespace in
the pattern. -/
def matchFeatApp (s : List Char) : Option Nat :=
  match s with
  | [] => none
  | c :: r1 =>
    if c = '(' then
      if ciPrefix ("feat. ".data) r1 then
        match findStop (')') (r1.drop 6) with
        | some b => some (1 + 6 + b + 1)
        | none => none
      else none
    else none

/-- Matcher for the app_new parenthesised Explicit marker with optional
leading whitespace, case-insensitive. -/
def matchExplParenNew (s : List Char) : Option Nat :=
  let sp := (s.takeWhile pyIsSpace).length
  match s.dropWhile pyIsSpace with
  | [] => none
  | c :: r1 =>
    if c = '(' then
      if ciPrefix ("explicit)".data) r1 then some (sp + 10) else none
    else none

/-- Matcher for the app.py parenthesised Explicit marker, case-insensitive,
no leading whitespace. -/
def matchExplParenApp (s : List Char) : Option Nat :=
  match s with
  | [] => none
  | c :: r1 =>
    if c = '(' then
      if ciPrefix ("explicit)".data) r1 then some 10 else none
    else none

/-- Matcher for the app_new bracketed Explicit marker with optional leading
whitespace, case-insensitive. -/
def matchExplBrackNew (s : List Char) : Option Nat :=
  let sp := (s.takeWhile pyIsSpace).length
  match s.dropWhile pyIsSpace with
  | [] => none
  | c :: r1 =>
    if c = '[' then
      if ciPrefix ("explicit]".data) r1 then some (sp + 10) else none
    else none

/-- Matcher for the app.py bracketed Explicit marker, case-insensitive, no
leading whitespace. -/
def matchExplBrackApp (s : List Char) : Option Nat :=
  match s with
  | [] => none
  | c :: r1 =>
    if c = '[' then
      if ciPrefix ("explicit]".data) r1 then some 10 else none
    else none

/-- Matcher for the app_new pattern removing any bracketed segment: optional
whitespace, open bracket, lazy body, closing bracket. -/
def matchBrackNew (s : List Char) : Option Nat :=
  let sp := (s.takeWhile pyIsSpace).length
  match s.dropWhile pyIsSpace with
  | [] => none
  | c :: r1 =>
    if c = '[' then
      match findStop (']') r1 with
      | some b => some (sp + 1 + b + 1)
      | none => none
    else none

/-- Matcher for the app.py pattern removing any bracketed segment, without
leading whitespace. -/
def matchBrackApp (s : List Char) : Option Nat :=
  match s with
  | [] => none
  | c :: r1 =>
    if c = '[' then
      match findStop (']') r1 with
      | some b => some (1 + b + 1)
      | none => none
    else none

/-- Matcher for the app_new index pattern removing any parenthesised
segment: open paren, a greedy run of non-close-paren characters (newline
allowed), closing paren. -/
def matchParenAny (s : List Char) : Option Nat :=
  match s with
  | [] => none
  | c :: r1 =>
    if c = '(' then
      match findStopNl (')') r1 with
      | some b => some (1 + b + 1)
      | none => none
    else none

/-- Model of the anchored app_new leading-number removal: digits, optional
whitespace, an optional dash or dot, optional whitespace, all greedy; the
anchored pattern is applied at most once, at the start. -/
def subLeadNumNew (l : List Char) : List Char :=
  match l with
  | [] => []
  | c :: _ =>
    if c.isDigit then
      let r1 := l.dropWhile Char.isDigit
      let r2 := r1.dropWhile pyIsSpace
      let r3 :=
        match r2 with
        | [] => []
        | c2 :: t2 => if c2 = '-' || c2 = '.' then t2 else c2 :: t2
      r3.dropWhile pyIsSpace
    else l

/-- Model of the anchored app.py leading-number removal: digits followed by
at least one whitespace character; with no whitespace after the digits the
pattern fails and the string is unchanged. -/
def subLeadNumApp (l : List Char) : List Char :=
  match l with
  | [] => []
  | c :: _ =>
    if c.isDigit then
      match l.dropWhile Char.isDigit with
      | [] => l
      | c2 :: t2 =>
        if pyIsSpace c2 then (c2 :: t2).dropWhile pyIsSpace else l
    else l

/-- Model of str.strip at the end of a character list. -/
def pyStripEnd (l : List Char) : List Char :=
  ((l.reverse).dropWhile pyIsSpace).reverse

/-- Model of str.strip: whitespace removed from both ends. -/
def pyStrip (l : List Char) : List Char :=
  pyStripEnd (l.dropWhile pyIsSpace)

/-- Model of str.strip on strings. -/
def pyStripS (s : String) : String :=
  ⟨pyStrip s.data⟩

/-- Embedding of MusicDownloader.clean_title of src/app_new.py: leading
number prefix, feat segments, Explicit markers, remaining bracketed
segments, then strip. -/
def cleanTitleData (l : List Char) : List Char :=
  pyStrip (pySubScan matchBrackNew
    (pySubScan matchExplBrackNew
      (pySubScan matchExplParenNew
        (pySubScan matchFeatNew (subLeadNumNew l)))))

/-- String wrapper for clean_title of src/app_new.py. -/
def clean_title (t : String) : String :=
  ⟨cleanTitleData t.data⟩

/-- Embedding of the inline per-file title cleaning of src/app.py
(clean_track_titles_and_set_albumartist, lines 159-163). -/
def cleanFileAppData (l : List Char) : List Char :=
  pyStrip (pySubScan matchBrackApp
    (pySubScan matchExplBrackApp
      (pySubScan matchExplParenApp
        (pySubScan matchFeatApp (subLeadNumApp l)))))

/-- String wrapper for the app.py per-file cleaner. -/
def cleanFileApp (t : String) : String :=
  ⟨cleanFileAppData t.data⟩

/-- Embedding of the inline index-side title cleaning of src/app.py
(lines 124-127): feat, both Explicit markers, strip; no leading-number
removal and no general bracket removal there. -/
def cleanIndexAppData (l : List Char) : List Char :=
  pyStrip (pySubScan matchExplBrackApp
    (pySubScan matchExplParenApp (pySubScan matchFeatApp l)))

/-- String wrapper for the app.py index-side cleaner. -/
def cleanIndexApp (t : String) : String :=
  ⟨cleanIndexAppData t.data⟩

/-- Embedding of the app_new no-parens index key (line 217): remove every
parenthesised segment, then strip. -/
def noParens (t : String) : String :=
  ⟨pyStrip (pySubScan matchParenAny t.data)⟩

/-- Matcher for a maximal run of non-word characters, the pattern deleted by
normalize_title. -/
def matchNonWordRun (s : List Char) : Option Nat :=
  match s with
  | [] => none
  | c :: _ =>
    if isWordChar c then none
    else some ((s.takeWhile (fun a => !isWordChar a)).length)

/-- Embedding of MusicDownloader.normalize_title (identical in src/app.py
line 101-103 and src/app_new.py line 98-100): delete every run of non-word
characters, then lower-case. -/
def normalize_title (t : String) : String :=
  ⟨pyLower (pySubScan matchNonWordRun t.data)⟩

/-- Helper for the model of str.split with no arguments. -/
def splitWordsAux : List Char → List Char → List (List Char)
  | [], acc => if acc.isEmpty then [] else [acc.reverse]
  | c :: cs, acc =>
    if pyIsSpace c then
      if acc.isEmpty then splitWordsAux cs [] else acc.reverse :: splitWordsAux cs []
    else splitWordsAux cs (c :: acc)

/-- Model of str.split with no arguments: split on whitespace runs,
producing no empty words. -/
def pySplit (s : String) : List String :=
  (splitWordsAux s.data []).map fun w => ⟨w⟩

/-- Model of the space-join of a word list. -/
def joinWords (ws : List String) : String :=
  String.intercalate " " ws

/-- Model of os.path.splitext root: cut at the last dot unless every
character before it is a dot. -/
def splitextStem (l : List Char) : List Char :=
  match (l.reverse).dropWhile (fun c => c != '.') with
  | [] => l
  | c :: rest =>
    if c = '.' then
      if rest.any (fun a => a != '.') then rest.reverse else l
    else l

/-- String wrapper for the splitext root, the fallback title of a file. -/
def stem (s : String) : String :=
  ⟨splitextStem s.data⟩

/-- Model of the audio-file filter used by both passes: lower-cased name
ends with the mp3 or flac extension. -/
def isAudioName (f : String) : Bool :=
  List.isSuffixOf (".mp3".data) (pyLower f.data)
    || List.isSuffixOf (".flac".data) (pyLower f.data)

/-- Lexicographic strict comparison of character lists by code point, the
Python string order. -/
def strLtL : List Char → List Char → Bool
  | [], [] => false
  | [], _ :: _ => true
  | _ :: _, [] => false
  | a :: as, b :: bs =>
    if a.toNat < b.toNat then true
    else if b.toNat < a.toNat then false
    else strLtL as bs

/-- Python string strict order. -/
def strLt (a b : String) : Bool :=
  strLtL a.data b.data

/-- Python string non-strict order. -/
def strLe (a b : String) : Bool :=
  !(strLt b a)

/-- Stable ascending insertion used by the model of Python sorted: the new
element goes after every strictly smaller element and before equals. -/
def pyInsert (x : String) : List String → List String
  | [] => [x]
  | y :: ys => if strLt y x then y :: pyInsert x ys else x :: y :: ys

/-- Model of Python sorted on string lists: a stable ascending sort. -/
def pySorted (l : List String) : List String :=
  l.foldr pyInsert []

/-- Model of Python enumerate with a start index. -/
def pyEnum : Nat → List String → List (Nat × String)
  | _, [] => []
  | n, a :: as => (n, a) :: pyEnum (n + 1) as

/-- Model of a CPython dict with string keys and integer values, as a list
of pairs in insertion order. -/
abbrev Dict := List (String × Nat)

/-- CPython dict assignment: an existing key keeps its position and gets the
new value, a new key is appended at the end. -/
def dictInsert (k : String) (v : Nat) : Dict → Dict
  | [] => [(k, v)]
  | (k2, v2) :: rest =>
    if k2 = k then (k, v) :: rest else (k2, v2) :: dictInsert k v rest

/-- CPython dict get with default None. -/
def dictGet (k : String) : Dict → Option Nat
  | [] => none
  | (k2, v2) :: rest => if k2 = k then some v2 else dictGet k rest

/-- The keys of a dict, in iteration order. -/
def keysOf (d : Dict) : List String :=
  d.map Prod.fst

/-- Insert several keys for the same position, left to right. -/
def insertKeys (ks : List String) (v : Nat) (d : Dict) : Dict :=
  ks.foldl (fun d k => dictInsert k v d) d

/-- Index construction loop: for the entry at the given 1-based position,
insert every generated key mapped to that position, then continue. -/
def buildIndexAux (kg : String → List String) : List String → Nat → Dict → Dict
  | [], _, d => d
  | t :: ts, idx, d => buildIndexAux kg ts (idx + 1) (insertKeys (kg t) idx d)

/-- Track index built from the authoritative title list with a per-entry
key generator, starting from position 1 and an empty dict. -/
def buildIndexWith (kg : String → List String) (ts : List String) : Dict :=
  buildIndexAux kg ts 1 []

/-- Keys generated per entry by src/app.py (lines 119-130): normalized raw
title, then normalized cleaned title. -/
def kgApp (t : String) : List String :=
  [normalize_title t, normalize_title (cleanIndexApp t)]

/-- Keys generated per entry by src/app_new.py (lines 206-218): normalized
raw title, normalized cleaned title, normalized no-parens title. -/
def kgNew (t : String) : List String :=
  [normalize_title t, normalize_title (clean_title t), normalize_title (noParens t)]

/-- Track index of src/app.py. -/
def buildIndexApp (ts : List String) : Dict :=
  buildIndexWith kgApp ts

/-- Track index of src/app_new.py. -/
def buildIndexNew (ts : List String) : Dict :=
  buildIndexWith kgNew ts

/-- Python truthiness of an optional integer: None and 0 are falsy. -/
def pyTruthy : Option Nat → Bool
  | none => false
  | some v => v != 0

/-- Python or on two optional integers: the first operand if truthy, else
the second operand. -/
def pyOr (a b : Option Nat) : Option Nat :=
  if pyTruthy a then a else b

/-- Track-number lookup of src/app.py (line 169): get on the normalized
cleaned title, chained with Python or to get on the normalized original
title. -/
def lookupApp (d : Dict) (cleaned title : String) : Option Nat :=
  pyOr (dictGet (normalize_title cleaned) d) (dictGet (normalize_title title) d)

/-- Last-resort prefix step of src/app_new.py (lines 262-270): normalize the
first three words of the cleaned title and take the value of the first dict
item whose key starts with that text; with no words, or no such key, the
track number is left as it was. -/
def prefixStep (d : Dict) (cleaned : String) (tn : Option Nat) : Option Nat :=
  let ws := (pySplit cleaned).take 3
  if ws.isEmpty then tn
  else
    match d.find? (fun kv => (normalize_title (joinWords ws)).data.isPrefixOf kv.1.data) with
    | some kv => some kv.2
    | none => tn

/-- Track-number lookup of src/app_new.py (lines 251-270): cleaned-title
get, retried on the original title if falsy, then the prefix step if still
falsy. -/
def lookupNew (d : Dict) (cleaned title : String) : Option Nat :=
  let t1 := dictGet (normalize_title cleaned) d
  let t2 := if pyTruthy t1 then t1 else dictGet (normalize_title title) d
  if pyTruthy t2 then t2 else prefixStep d cleaned t2

/-- Tag state of one audio file, the fields touched by the passes. -/
structure Tags where
  title : Option String := none
  albumartist : Option String := none
  artist : Option String := none
  album : Option String := none
  tracknumber : Option String := none
deriving DecidableEq

/-- On-disk state of one file for the model: whether the tag container
opens, the tags it holds, and whether saving succeeds. The readable flag
abstracts a mutagen open raising; the writable flag abstracts save
raising. -/
structure FileState where
  readable : Bool := true
  tags : Tags := {}
  writable : Bool := true
deriving DecidableEq

/-- Per-file outcome of a pass: tags written, or a caught per-file failure
reported as a diagnostic. -/
inductive Outcome where
  | updated (name : String) (tags : Tags)
  | failed (name : String)
deriving DecidableEq

/-- The file a given outcome is about. -/
def Outcome.name : Outcome → String
  | .updated n _ => n
  | .failed n => n

/-- Per-file body of src/app.py (lines 137-178), before the enclosing
try-except: set albumartist, clean the title, look the track number up, and
on no match write the sequential fallback index; any raise surfaces as an
error. -/
def body_app (aa : String) (d : Dict) (fallbackIdx : Nat) (name : String)
    (st : FileState) : Except String Tags :=
  if st.readable then
    let tags0 := st.tags
    let tags1 := { tags0 with albumartist := some aa }
    let title := tags1.title.getD (stem name)
    let cleaned := cleanFileApp title
    let tags2 := { tags1 with title := some cleaned }
    let tn := lookupApp d cleaned title
    let tags3 :=
      match tn with
      | some v =>
        if v != 0 then { tags2 with tracknumber := some (toString v) }
        else { tags2 with tracknumber := some (toString fallbackIdx) }
      | none => { tags2 with tracknumber := some (toString fallbackIdx) }
    if st.writable then Except.ok tags3 else Except.error "save"
  else Except.error "open"

/-- The app.py loop body with its try-except: a raise becomes a diagnostic
outcome. -/
def handleApp (aa : String) (d : Dict) (fallbackIdx : Nat) (name : String)
    (st : FileState) : Outcome :=
  match body_app aa d fallbackIdx name st with
  | .ok t => .updated name t
  | .error _ => .failed name

/-- Per-file body of src/app_new.py (lines 224-278), before the enclosing
try-except: read the title, clean it, set albumartist, artist, album and
title, look the track number up, and write it only when truthy. -/
def body_new (aa album : String) (d : Dict) (name : String)
    (st : FileState) : Except String Tags :=
  if st.readable then
    let tags0 := st.tags
    let title := tags0.title.getD (stem name)
    let cleaned := clean_title title
    let tags1 := { tags0 with
      albumartist := some aa
      artist := some aa
      album := some album
      title := some cleaned }
    let tn := lookupNew d cleaned title
    let tags2 :=
      match tn with
      | some v =>
        if v != 0 then { tags1 with tracknumber := some (toString v) } else tags1
      | none => tags1
    if st.writable then Except.ok tags2 else Except.error "save"
  else Except.error "open"

/-- The app_new loop body with its try-except. -/
def handleNew (aa album : String) (d : Dict) (name : String)
    (st : FileState) : Outcome :=
  match body_new aa album d name st with
  | .ok t => .updated name t
  | .error _ => .failed name

/-- Reconciliation pass of src/app.py
(clean_track_titles_and_set_albumartist): build the index, filter the
directory listing to audio files, sort the names, and process each with a
1-based fallback index. -/
def runPass_app (aa : String) (tracks : List String) (listing : List String)
    (fs : String → FileState) : List Outcome :=
  let d := buildIndexApp tracks
  let audio := pySorted (listing.filter isAudioName)
  (pyEnum 1 audio).map fun p => handleApp aa d p.1 p.2 (fs p.2)

/-- Reconciliation pass of src/app_new.py (fix_track_metadata): build the
index, filter the directory listing to audio files, and process each in
listing order. -/
def runPass_new (aa album : String) (tracks : List String)
    (listing : List String) (fs : String → FileState) : List Outcome :=
  let d := buildIndexNew tracks
  (listing.filter isAudioName).map fun n => handleNew aa album d n (fs n)

/-! Definitions written from the words of the specification, used to state
refinement-style claims against the code-derived definitions above. -/

/-- Modelled from the spec: try lookups in order until one succeeds. -/
def firstSuccess (a b : Option Nat) : Option Nat :=
  match a with
  | some v => some v
  | none => b

/-- Helper for the spec-side last-write-wins description: the 1-based
position of the last entry whose generated keys contain the key. -/
def lastGenAux (kg : String → List String) (k : String) :
    List String → Nat → Option Nat
  | [], _ => none
  | t :: ts, idx =>
    match lastGenAux kg k ts (idx + 1) with
    | some p => some p
    | none => if k ∈ kg t then some idx else none

/-- Modelled from the spec: under last-write-wins, the index maps a key to
the position of the last list entry generating it. -/
def specLastWins (kg : String → List String) (ts : List String) (k : String) :
    Option Nat :=
  lastGenAux kg k ts 1

/-- Append a key if it has not been seen: first-insertion key order. -/
def addKeyFirst (acc : List String) (k : String) : List String :=
  if k ∈ acc then acc else acc ++ [k]

/-- Modelled from the claim wording: index keys in insertion order, keys of
earlier authoritative entries before later ones, each key at its first
occurrence. -/
def specKeyOrder (kg : String → List String) (ts : List String) : List String :=
  (ts.flatMap kg).foldl addKeyFirst []

/-- Modelled from the claim wording: normalize the first three words of the
cleaned title and return the stored position of the first index key, in key
iteration order, starting with that text; none if no words or no such
key. -/
def specPrefixMatch (d : Dict) (cleaned : String) : Option Nat :=
  let ws := (pySplit cleaned).take 3
  if ws.isEmpty then none
  else
    ((keysOf d).find? (fun k => (normalize_title (joinWords ws)).data.isPrefixOf k.data)).bind
      (fun k => dictGet k d)

/-! Helper lemmas about the scanners and strip. -/

/-- Does a character list start with a digit. -/
def headDigit : List Char → Bool
  | [] => false
  | c :: _ => c.isDigit

theorem pySubScanAux_id (m : List Char → Option Nat) (P : List Char → Prop)
    (hm : ∀ l, P l → m l = none) (htail : ∀ c cs, P (c :: cs) → P cs) :
    ∀ (fuel : Nat) (l : List Char), P l → pySubScanAux m fuel l = l := by
  intro fuel
  induction fuel with
  | zero => intro l _; cases l <;> rfl
  | succ n ih =>
    intro l hP
    cases l with
    | nil => rfl
    | cons c cs =>
      show (match m (c :: cs) with
        | some k => pySubScanAux m n (cs.drop (k - 1))
        | none => c :: pySubScanAux m n cs) = c :: cs
      rw [hm _ hP]
      exact congrArg (c :: ·) (ih cs (htail c cs hP))

theorem mem_of_dropWhile_cons {p : Char → Bool} {l : List Char} {c : Char}
    {cs : List Char} (hdw : l.dropWhile p = c :: cs) : c ∈ l :=
  List.Sublist.mem (by rw [hdw]; exact List.mem_cons_self c cs)
    (List.dropWhile_suffix p).sublist

theorem matchFeatNew_none (l : List Char) (h : (('('):Char) ∈ l → False) :
    matchFeatNew l = none := by
  unfold matchFeatNew
  cases hdw : l.dropWhile pyIsSpace with
  | nil => simp [hdw]
  | cons c r1 =>
    have hc : c ≠ '(' := fun he => h (he ▸ mem_of_dropWhile_cons hdw)
    simp [hdw, hc]

theorem matchExplParenNew_none (l : List Char) (h : (('('):Char) ∈ l → False) :
    matchExplParenNew l = none := by
  unfold matchExplParenNew
  cases hdw : l.dropWhile pyIsSpace with
  | nil => simp [hdw]
  | cons c r1 =>
    have hc : c ≠ '(' := fun he => h (he ▸ mem_of_dropWhile_cons hdw)
    simp [hdw, hc]

theorem matchExplBrackNew_none (l : List Char) (h : (('['):Char) ∈ l → False) :
    matchExplBrackNew l = none := by
  unfold matchExplBrackNew
  cases hdw : l.dropWhile pyIsSpace with
  | nil => simp [hdw]
  | cons c r1 =>
    have hc : c ≠ '[' := fun he => h (he ▸ mem_of_dropWhile_cons hdw)
    simp [hdw, hc]

theorem matchBrackNew_none (l : List Char) (h : (('['):Char) ∈ l → False) :
    matchBrackNew l = none := by
  unfold matchBrackNew
  cases hdw : l.dropWhile pyIsSpace with
  | nil => simp [hdw]
  | cons c r1 =>
    have hc : c ≠ '[' := fun he => h (he ▸ mem_of_dropWhile_cons hdw)
    simp [hdw, hc]

theorem pySubScan_feat_id (l : List Char) (h : (('('):Char) ∉ l) :
    pySubScan matchFeatNew l = l :=
  pySubScanAux_id matchFeatNew (fun s => (('('):Char) ∉ s)
    (fun s hs => matchFeatNew_none s hs)
    (fun c _ hP hx => hP (List.mem_cons_of_mem c hx)) l.length l h

theorem pySubScan_explParen_id (l : List Char) (h : (('('):Char) ∉ l) :
    pySubScan matchExplParenNew l = l :=
  pySubScanAux_id matchExplParenNew (fun s => (('('):Char) ∉ s)
    (fun s hs => matchExplParenNew_none s hs)
    (fun c _ hP hx => hP (List.mem_cons_of_mem c hx)) l.length l h

theorem pySubScan_explBrack_id (l : List Char) (h : (('['):Char) ∉ l) :
    pySubScan matchExplBrackNew l = l :=
  pySubScanAux_id matchExplBrackNew (fun s => (('['):Char) ∉ s)
    (fun s hs => matchExplBrackNew_none s hs)
    (fun c _ hP hx => hP (List.mem_cons_of_mem c hx)) l.length l h

theorem pySubScan_brack_id (l : List Char) (h : (('['):Char) ∉ l) :
    pySubScan matchBrackNew l = l :=
  pySubScanAux_id matchBrackNew (fun s => (('['):Char) ∉ s)
    (fun s hs => matchBrackNew_none s hs)
    (fun c _ hP hx => hP (List.mem_cons_of_mem c hx)) l.length l h

theorem subLeadNumNew_id (l : List Char) (h : headDigit l = false) :
    subLeadNumNew l = l := by
  cases l with
  | nil => rfl
  | cons c cs => simp [subLeadNumNew, show c.isDigit = false from h]

theorem dropWhile_dropWhile (p : Char → Bool) (l : List Char) :
    (l.dropWhile p).dropWhile p = l.dropWhile p := by
  induction l with
  | nil => rfl
  | cons c cs ih =>
    by_cases hc : p c
    · simp [List.dropWhile_cons, hc, ih]
    · simp [List.dropWhile_cons, hc]

theorem pyStripEnd_idem (l : List Char) : pyStripEnd (pyStripEnd l) = pyStripEnd l := by
  unfold pyStripEnd
  rw [List.reverse_reverse, dropWhile_dropWhile]

theorem pyStrip_idem (l : List Char) : pyStrip (pyStrip l) = pyStrip l := by
  unfold pyStrip
  have hpre : pyStripEnd (l.dropWhile pyIsSpace) <+: l.dropWhile pyIsSpace := by
    have h1 := List.reverse_prefix.mpr
      (List.dropWhile_suffix (l := (l.dropWhile pyIsSpace).reverse) pyIsSpace)
    rwa [List.reverse_reverse] at h1
  have hdw : (pyStripEnd (l.dropWhile pyIsSpace)).dropWhile pyIsSpace
      = pyStripEnd (l.dropWhile pyIsSpace) := by
    cases he : pyStripEnd (l.dropWhile pyIsSpace) with
    | nil => rfl
    | cons c cs =>
      rw [he] at hpre
      obtain ⟨t, ht⟩ := hpre
      have hne : l.dropWhile pyIsSpace ≠ [] := by
        rw [← ht]; simp
      have hhead := List.head_dropWhile_not pyIsSpace l hne
      have hc : (l.dropWhile pyIsSpace).head hne = c := by
        simp [← ht]
      rw [hc] at hhead
      simp [List.dropWhile_cons, hhead]
  rw [hdw, pyStripEnd_idem]

theorem clean_title_data (t : String) :
    (clean_title t).data = cleanTitleData t.data := rfl

theorem cleanTitleData_eq (l : List Char) :
    cleanTitleData l = pyStrip (pySubScan matchBrackNew
      (pySubScan matchExplBrackNew
        (pySubScan matchExplParenNew
          (pySubScan matchFeatNew (subLeadNumNew l))))) := rfl

/-- C2 (amended): the title cleaner of app_new is idempotent on every input
whose cleaned result does not start with a digit and contains neither an
open paren nor an open bracket; the general claim fails because a first
cleaning can expose further removable text (see the counterexample). -/
theorem C2_clean_title_idempotent_on_stable (x : String)
    (h1 : headDigit (clean_title x).data = false)
    (h2 : (('('):Char) ∉ (clean_title x).data)
    (h3 : (('['):Char) ∉ (clean_title x).data) :
    clean_title (clean_title x) = clean_title x := by
  apply String.ext
  rw [clean_title_data, cleanTitleData_eq, subLeadNumNew_id _ h1,
    pySubScan_feat_id _ h2, pySubScan_explParen_id _ h2,
    pySubScan_explBrack_id _ h3, pySubScan_brack_id _ h3,
    clean_title_data, cleanTitleData_eq]
  exact pyStrip_idem (pySubScan matchBrackNew
    (pySubScan matchExplBrackNew
      (pySubScan matchExplParenNew
        (pySubScan matchFeatNew (subLeadNumNew x.data)))))

/-- C2 witness: a concrete input whose cleaned result is stable, on which
the idempotence theorem applies. -/
theorem C2_witness :
    clean_title "03 - Song [Explicit]" = "Song" ∧
    clean_title (clean_title "03 - Song [Explicit]") = clean_title "03 - Song [Explicit]" :=
  ⟨by decide,
    C2_clean_title_idempotent_on_stable "03 - Song [Explicit]"
      (by decide) (by decide) (by decide)⟩

/-- C2 counterexample: removing a bracketed marker exposes a leading number,
so a second cleaning removes more and the cleaner is not idempotent. -/
theorem C2_counterexample :
    clean_title "[Explicit] 7 Rings" = "7 Rings" ∧
    clean_title (clean_title "[Explicit] 7 Rings") = "Rings" ∧
    clean_title (clean_title "[Explicit] 7 Rings") ≠ clean_title "[Explicit] 7 Rings" :=
  ⟨by decide, by decide, by decide⟩

/-- C3 (amended): on non-empty inputs consisting only of removable noise
markers the cleaner returns the empty string; the code has no guard keeping
the original trimmed title. -/
theorem C3_clean_title_empty_on_noise :
    clean_title "[Explicit]" = "" ∧ clean_title " [Explicit] " = "" ∧
    clean_title "(Explicit)" = "" ∧ clean_title "(feat. X)" = "" := by
  refine ⟨by decide, by decide, by decide, by decide⟩

/-- C3 counterexample: on the noise-only input the cleaner returns the empty
string, not the original trimmed title. -/
theorem C3_counterexample :
    clean_title "[Explicit]" = "" ∧ pyStripS "[Explicit]" = "[Explicit]" ∧
    clean_title "[Explicit]" ≠ pyStripS "[Explicit]" :=
  ⟨by decide, by decide, by decide⟩

/-! Lemmas for the key normalizer. -/

theorem pySubScan_eq (m : List Char → Option Nat) (l : List Char) :
    pySubScan m l = pySubScanAux m l.length l := rfl

theorem drop_length_takeWhile (p : Char → Bool) (l : List Char) :
    l.drop (l.takeWhile p).length = l.dropWhile p := by
  induction l with
  | nil => rfl
  | cons c cs ih =>
    by_cases hc : p c
    · simp [List.takeWhile_cons, List.dropWhile_cons, hc, ih]
    · simp [List.takeWhile_cons, List.dropWhile_cons, hc]

theorem filter_dropWhile_nonWord (l : List Char) :
    (l.dropWhile (fun a => !isWordChar a)).filter isWordChar
      = l.filter isWordChar := by
  conv_rhs => rw [← List.takeWhile_append_dropWhile (p := fun a => !isWordChar a) (l := l)]
  rw [List.filter_append]
  have hnil : (l.takeWhile (fun a => !isWordChar a)).filter isWordChar = [] := by
    rw [List.filter_eq_nil_iff]
    intro a ha
    have hw : isWordChar a = false := by simpa using List.mem_takeWhile_imp ha
    simp [hw]
  rw [hnil, List.nil_append]

theorem subNonWord_eq_filter :
    ∀ (fuel : Nat) (l : List Char), l.length ≤ fuel →
      pySubScanAux matchNonWordRun fuel l = l.filter isWordChar := by
  intro fuel
  induction fuel with
  | zero =>
    intro l hl
    have hz : l = [] := List.length_eq_zero.mp (Nat.le_zero.mp hl)
    subst hz; rfl
  | succ n ih =>
    intro l hl
    cases l with
    | nil => rfl
    | cons c cs =>
      have hstep : pySubScanAux matchNonWordRun (n + 1) (c :: cs)
          = match matchNonWordRun (c :: cs) with
            | some k => pySubScanAux matchNonWordRun n (cs.drop (k - 1))
            | none => c :: pySubScanAux matchNonWordRun n cs := rfl
      by_cases hc : isWordChar c
      · rw [hstep, show matchNonWordRun (c :: cs) = none from by
          simp [matchNonWordRun, hc]]
        rw [List.filter_cons]
        simp only [hc, if_true]
        exact congrArg (c :: ·) (ih cs (Nat.le_of_succ_le_succ hl))
      · have hcf : isWordChar c = false := by
          exact Bool.not_eq_true _ ▸ (by simpa using hc)
        have hm : matchNonWordRun (c :: cs)
            = some ((cs.takeWhile (fun a => !isWordChar a)).length + 1) := by
          simp [matchNonWordRun, hcf, List.takeWhile_cons, Nat.add_comm]
        rw [hstep, hm]
        have hdrop : cs.drop ((cs.takeWhile (fun a => !isWordChar a)).length + 1 - 1)
            = cs.dropWhile (fun a => !isWordChar a) := by
          simp [drop_length_takeWhile]
        show pySubScanAux matchNonWordRun n
            (cs.drop ((cs.takeWhile (fun a => !isWordChar a)).length + 1 - 1))
          = List.filter isWordChar (c :: cs)
        rw [hdrop, ih _ (le_trans (List.dropWhile_suffix _).sublist.length_le
          (Nat.le_of_succ_le_succ hl))]
        rw [List.filter_cons]
        simp only [hcf, if_false]
        exact filter_dropWhile_nonWord cs

theorem normalize_title_data (t : String) :
    (normalize_title t).data = pyLower (pySubScan matchNonWordRun t.data) := rfl

/-- C4 (amended): the key normalizer keeps exactly the word characters of
the input (letters, digits and underscores: the Python word class, so
underscores survive) and lower-cases them; it is a total pure function and
maps the empty string to the empty string. -/
theorem C4_normalize_characterization :
    normalize_title "" = "" ∧
    ∀ t : String,
      (normalize_title t).data = (t.data.filter isWordChar).map Char.toLower := by
  refine ⟨rfl, fun t => ?_⟩
  rw [normalize_title_data, pySubScan_eq,
    subNonWord_eq_filter _ _ (Nat.le_refl _)]
  rfl

/-- C4 counterexample: the underscore is kept by the normalizer although it
is neither a letter nor a digit, refuting the stated output alphabet. -/
theorem C4_counterexample :
    normalize_title "_" = "_" ∧
    ¬((('_'):Char).isAlpha = true ∨ (('_'):Char).isDigit = true) :=
  ⟨by decide, by decide⟩

/-! Lemmas about the dict model and the track index. -/

theorem dictGet_dictInsert (k k2 : String) (v : Nat) (d : Dict) :
    dictGet k (dictInsert k2 v d) = if k2 = k then some v else dictGet k d := by
  induction d with
  | nil => simp [dictInsert, dictGet]
  | cons p rest ih =>
    obtain ⟨k3, v3⟩ := p
    by_cases h32 : k3 = k2
    · subst h32
      by_cases h3k : k3 = k <;> simp [dictInsert, dictGet, h3k]
    · by_cases h3k : k3 = k
      · subst h3k
        have hne : ¬ k2 = k3 := fun h => h32 (Eq.symm h)
        simp [dictInsert, dictGet, h32, hne]
      · simp [dictInsert, dictGet, h32, h3k, ih]

theorem dictGet_insertKeys (k : String) (ks : List String) (v : Nat) (d : Dict) :
    dictGet k (insertKeys ks v d) = if k ∈ ks then some v else dictGet k d := by
  induction ks generalizing d with
  | nil => simp [insertKeys]
  | cons a ks ih =>
    show dictGet k (insertKeys ks v (dictInsert a v d)) = _
    rw [ih]
    by_cases hks : k ∈ ks
    · simp [hks]
    · rw [dictGet_dictInsert]
      by_cases hak : a = k
      · simp [hks, hak]
      · have hka : ¬ k = a := fun h => hak (Eq.symm h)
        simp [hks, hak, hka]

theorem dictGet_buildIndexAux (kg : String → List String) (k : String) :
    ∀ (ts : List String) (idx : Nat) (d : Dict),
      dictGet k (buildIndexAux kg ts idx d)
        = match lastGenAux kg k ts idx with
          | some p => some p
          | none => dictGet k d := by
  intro ts
  induction ts with
  | nil => intro idx d; rfl
  | cons t ts ih =>
    intro idx d
    show dictGet k (buildIndexAux kg ts (idx + 1) (insertKeys (kg t) idx d)) = _
    rw [ih]
    cases hl : lastGenAux kg k ts (idx + 1) with
    | some p => simp [lastGenAux, hl]
    | none =>
      rw [dictGet_insertKeys]
      by_cases hmem : k ∈ kg t
      · simp [lastGenAux, hl, hmem]
      · simp [lastGenAux, hl, hmem]

theorem lastGenAux_ge (kg : String → List String) (k : String) :
    ∀ (ts : List String) (idx p : Nat),
      lastGenAux kg k ts idx = some p → idx ≤ p := by
  intro ts
  induction ts with
  | nil => intro idx p h; cases h
  | cons t ts ih =>
    intro idx p h
    cases hl : lastGenAux kg k ts (idx + 1) with
    | some q =>
      simp [lastGenAux, hl] at h
      have := ih (idx + 1) q hl
      omega
    | none =>
      by_cases hmem : k ∈ kg t
      · simp [lastGenAux, hl, hmem] at h
        omega
      · simp [lastGenAux, hl, hmem] at h

theorem dictGet_buildIndexWith_pos (kg : String → List String) (ts : List String)
    (k : String) (v : Nat) (h : dictGet k (buildIndexWith kg ts) = some v) :
    1 ≤ v := by
  rw [show buildIndexWith kg ts = buildIndexAux kg ts 1 [] from rfl,
    dictGet_buildIndexAux] at h
  cases hl : lastGenAux kg k ts 1 with
  | some p =>
    rw [hl] at h
    cases h
    exact lastGenAux_ge kg k ts 1 v hl
  | none =>
    rw [hl] at h
    cases h

/-- C5: the track index realizes last-write-wins: a key is mapped to the
position of the last authoritative entry generating it, and on the
duplicated list the normalized key maps to position 2 in both variants. -/
theorem C5_index_last_write_wins :
    (∀ (kg : String → List String) (ts : List String) (k : String),
      dictGet k (buildIndexWith kg ts) = specLastWins kg ts k) ∧
    dictGet (normalize_title "Intro") (buildIndexApp ["Intro", "Intro"]) = some 2 ∧
    dictGet (normalize_title "Intro") (buildIndexNew ["Intro", "Intro"]) = some 2 := by
  refine ⟨fun kg ts k => ?_, by decide, by decide⟩
  rw [show buildIndexWith kg ts = buildIndexAux kg ts 1 [] from rfl,
    dictGet_buildIndexAux]
  unfold specLastWins
  cases lastGenAux kg k ts 1 <;> rfl

/-- C9: every value stored in the track index is at least 1, so the Python
truthiness used to chain the lookups never discards a successful match: the
or-chain equals the first-success chain and a successful get is truthy. -/
theorem C9_index_positions_positive :
    (∀ (kg : String → List String) (ts : List String) (k : String) (v : Nat),
      dictGet k (buildIndexWith kg ts) = some v → 1 ≤ v) ∧
    (∀ a b : Option Nat, (∀ v, a = some v → 1 ≤ v) →
      pyOr a b = firstSuccess a b) ∧
    (∀ a : Option Nat, (∀ v, a = some v → 1 ≤ v) →
      (pyTruthy a = true ↔ ∃ v, a = some v)) := by
  refine ⟨dictGet_buildIndexWith_pos, fun a b ha => ?_, fun a ha => ?_⟩
  · cases a with
    | none => rfl
    | some v =>
      have hv : 1 ≤ v := ha v rfl
      have hne : (v != 0) = true := by simpa using Nat.pos_iff_ne_zero.mp hv
      simp [pyOr, pyTruthy, firstSuccess, hne]
  · cases a with
    | none => simp [pyTruthy]
    | some v =>
      have hv : 1 ≤ v := ha v rfl
      have hne : (v != 0) = true := by simpa using Nat.pos_iff_ne_zero.mp hv
      simp [pyTruthy, hne]

/-- C9 witness: the positivity part applied to a concrete singleton index. -/
theorem C9_witness :
    dictGet (normalize_title "Intro") (buildIndexWith kgNew ["Intro"]) = some 1 ∧
    1 ≤ 1 :=
  ⟨by decide,
    C9_index_positions_positive.1 kgNew ["Intro"] (normalize_title "Intro") 1 (by decide)⟩

/-- C6 (amended): in both variants the lookup tries the normalized cleaned
title and then the normalized raw title, stopping at the first key present;
in app.py nothing further happens, while in app_new a last-resort prefix
step runs when both direct lookups fail. -/
theorem C6_lookup_chain_characterization :
    (∀ (ts : List String) (c t : String),
      lookupApp (buildIndexApp ts) c t
        = firstSuccess (dictGet (normalize_title c) (buildIndexApp ts))
            (dictGet (normalize_title t) (buildIndexApp ts))) ∧
    (∀ (ts : List String) (c t : String),
      lookupNew (buildIndexNew ts) c t
        = match firstSuccess (dictGet (normalize_title c) (buildIndexNew ts))
              (dictGet (normalize_title t) (buildIndexNew ts)) with
          | some v => some v
          | none => prefixStep (buildIndexNew ts) c none) := by
  constructor
  · intro ts c t
    unfold lookupApp
    cases ha : dictGet (normalize_title c) (buildIndexApp ts) with
    | none => simp [pyOr, pyTruthy, firstSuccess]
    | some v =>
      have hv : 1 ≤ v := dictGet_buildIndexWith_pos kgApp ts _ v ha
      have hne : (v != 0) = true := by simpa using Nat.pos_iff_ne_zero.mp hv
      simp [pyOr, pyTruthy, firstSuccess, hne]
  · intro ts c t
    unfold lookupNew
    cases ha : dictGet (normalize_title c) (buildIndexNew ts) with
    | some v =>
      have hv : 1 ≤ v := dictGet_buildIndexWith_pos kgNew ts _ v ha
      have hne : (v != 0) = true := by simpa using Nat.pos_iff_ne_zero.mp hv
      simp [pyTruthy, firstSuccess, hne]
    | none =>
      cases hb : dictGet (normalize_title t) (buildIndexNew ts) with
      | some w =>
        have hw : 1 ≤ w := dictGet_buildIndexWith_pos kgNew ts _ w hb
        have hne : (w != 0) = true := by simpa using Nat.pos_iff_ne_zero.mp hw
        simp [pyTruthy, firstSuccess, hne]
      | none => simp [pyTruthy, firstSuccess]

/-- C6 counterexample: with both direct lookups failing, the app_new lookup
still returns a position through the prefix step, so a file with neither key
in the index is not classified as a no-match there. -/
theorem C6_counterexample :
    dictGet (normalize_title "Hello World Song Different")
      (buildIndexNew ["Hello World Song Extra"]) = none ∧
    lookupNew (buildIndexNew ["Hello World Song Extra"])
      "Hello World Song Different" "Hello World Song Different" = some 1 :=
  ⟨by decide, by decide⟩

/-! Lemmas about key iteration order and the last-resort prefix match. -/

theorem keysOf_dictInsert (k : String) (v : Nat) (d : Dict) :
    keysOf (dictInsert k v d) = addKeyFirst (keysOf d) k := by
  induction d with
  | nil => simp [dictInsert, keysOf, addKeyFirst]
  | cons p rest ih =>
    obtain ⟨k2, v2⟩ := p
    by_cases h : k2 = k
    · subst h
      simp [dictInsert, keysOf, addKeyFirst]
    · have hne : ¬ k = k2 := fun he => h (Eq.symm he)
      have hinsert : dictInsert k v ((k2, v2) :: rest) = (k2, v2) :: dictInsert k v rest := by
        simp [dictInsert, h]
      rw [hinsert]
      show k2 :: keysOf (dictInsert k v rest) = addKeyFirst (keysOf ((k2, v2) :: rest)) k
      rw [ih]
      show k2 :: addKeyFirst (keysOf rest) k = addKeyFirst (k2 :: keysOf rest) k
      unfold addKeyFirst
      by_cases hmem : k ∈ keysOf rest
      · simp [hmem, hne, List.mem_cons]
      · simp [hmem, hne, List.mem_cons]

theorem keysOf_insertKeys (ks : List String) (v : Nat) (d : Dict) :
    keysOf (insertKeys ks v d) = ks.foldl addKeyFirst (keysOf d) := by
  induction ks generalizing d with
  | nil => rfl
  | cons a ks ih =>
    show keysOf (insertKeys ks v (dictInsert a v d)) = _
    rw [ih, keysOf_dictInsert]
    rfl

theorem keysOf_buildIndexAux (kg : String → List String) :
    ∀ (ts : List String) (idx : Nat) (d : Dict),
      keysOf (buildIndexAux kg ts idx d)
        = (ts.flatMap kg).foldl addKeyFirst (keysOf d) := by
  intro ts
  induction ts with
  | nil => intro idx d; rfl
  | cons t ts ih =>
    intro idx d
    show keysOf (buildIndexAux kg ts (idx + 1) (insertKeys (kg t) idx d)) = _
    rw [ih, keysOf_insertKeys,
      show (t :: ts).flatMap kg = kg t ++ ts.flatMap kg from rfl,
      List.foldl_append]

theorem find?_pairs_eq_keys (d : Dict) (p : String → Bool) :
    (d.find? (fun kv => p kv.1)).map Prod.snd
    = ((keysOf d).find? p).bind (fun k => dictGet k d) := by
  induction d with
  | nil => rfl
  | cons q rest ih =>
    obtain ⟨k0, v0⟩ := q
    by_cases hp : p k0
    · simp [keysOf, List.find?_cons, hp, dictGet]
    · have hL : ((k0, v0) :: rest).find? (fun kv => p kv.1)
          = rest.find? (fun kv => p kv.1) := by
        simp [List.find?_cons, hp]
      have hK : (keysOf ((k0, v0) :: rest)).find? p = (keysOf rest).find? p := by
        simp [keysOf, List.find?_cons, hp]
      rw [hL, hK, ih]
      cases hf : (keysOf rest).find? p with
      | none => rfl
      | some k =>
        have hpk : p k = true := List.find?_some hf
        have hkne : ¬ k0 = k := fun he => hp (by rw [he]; exact hpk)
        simp [dictGet, hkne]

theorem prefixStep_eq_spec (d : Dict) (cleaned : String) :
    prefixStep d cleaned none = specPrefixMatch d cleaned := by
  unfold prefixStep specPrefixMatch
  by_cases hw : ((pySplit cleaned).take 3).isEmpty
  · simp [hw]
  · simp only [hw, Bool.false_eq_true, if_false]
    have h : (d.find? (fun kv =>
          (normalize_title (joinWords ((pySplit cleaned).take 3))).data.isPrefixOf kv.1.data)).map Prod.snd
        = ((keysOf d).find? (fun k =>
          (normalize_title (joinWords ((pySplit cleaned).take 3))).data.isPrefixOf k.data)).bind
            (fun k => dictGet k d) :=
      find?_pairs_eq_keys d (fun k =>
        (normalize_title (joinWords ((pySplit cleaned).take 3))).data.isPrefixOf k.data)
    rw [← h]
    cases hf : d.find? (fun kv =>
        (normalize_title (joinWords ((pySplit cleaned).take 3))).data.isPrefixOf kv.1.data) with
    | none => rfl
    | some kv => rfl

/-- C10: when both direct lookups fail, the app_new lookup returns the
stored position of the first index key, in key iteration order, starting
with the normalized first three words of the cleaned title (none when there
are no words or no such key); and key iteration order is first-insertion
order over the keys generated by the authoritative entries in list order. -/
theorem C10_prefix_match :
    (∀ (d : Dict) (c t : String),
      dictGet (normalize_title c) d = none →
      dictGet (normalize_title t) d = none →
      lookupNew d c t = specPrefixMatch d c) ∧
    (∀ (kg : String → List String) (ts : List String),
      keysOf (buildIndexWith kg ts) = specKeyOrder kg ts) := by
  constructor
  · intro d c t h1 h2
    have hstep : lookupNew d c t = prefixStep d c none := by
      simp [lookupNew, h1, h2, pyTruthy]
    rw [hstep]
    exact prefixStep_eq_spec d c
  · intro kg ts
    rw [show buildIndexWith kg ts = buildIndexAux kg ts 1 [] from rfl,
      keysOf_buildIndexAux]
    rfl

/-- C10 witness: the prefix-step characterization applied to a concrete
index and title with both direct lookups failing. -/
theorem C10_witness :
    lookupNew (buildIndexNew ["Hello World Song Extra"])
      "Some Other Title" "Some Other Title"
      = specPrefixMatch (buildIndexNew ["Hello World Song Extra"]) "Some Other Title" :=
  C10_prefix_match.1 (buildIndexNew ["Hello World Song Extra"])
    "Some Other Title" "Some Other Title" (by decide) (by decide)

/-! Lemmas about the string order and the sort model. -/

theorem strLtL_asymm : ∀ a b : List Char, strLtL a b = true → strLtL b a = false := by
  intro a
  induction a with
  | nil =>
    intro b h
    cases b with
    | nil => simp [strLtL] at h
    | cons y ys => rfl
  | cons x xs ih =>
    intro b h
    cases b with
    | nil => simp [strLtL] at h
    | cons y ys =>
      unfold strLtL at h ⊢
      by_cases h1 : x.toNat < y.toNat
      · rw [if_neg (Nat.lt_asymm h1), if_pos h1]
      · rw [if_neg h1] at h
        by_cases h2 : y.toNat < x.toNat
        · rw [if_pos h2] at h
          simp at h
        · rw [if_neg h2] at h
          rw [if_neg h2, if_neg h1]
          exact ih ys h

theorem strLtL_le_trans :
    ∀ (x y z : List Char),
      strLtL y x = false → strLtL z y = false → strLtL z x = false := by
  intro x
  induction x with
  | nil =>
    intro y z h1 h2
    cases z with
    | nil => rfl
    | cons c cs => rfl
  | cons a as ih =>
    intro y z h1 h2
    cases y with
    | nil => simp [strLtL] at h1
    | cons b bs =>
      cases z with
      | nil => simp [strLtL] at h2
      | cons c cs =>
        unfold strLtL at h1 h2 ⊢
        by_cases hba : b.toNat < a.toNat
        · rw [if_pos hba] at h1
          simp at h1
        · rw [if_neg hba] at h1
          by_cases hcb : c.toNat < b.toNat
          · rw [if_pos hcb] at h2
            simp at h2
          · rw [if_neg hcb] at h2
            by_cases hca : c.toNat < a.toNat
            · exact absurd hca (by omega)
            · rw [if_neg hca]
              by_cases hac : a.toNat < c.toNat
              · rw [if_pos hac]
              · rw [if_neg hac]
                have hab : ¬ a.toNat < b.toNat := by omega
                have hbc : ¬ b.toNat < c.toNat := by omega
                rw [if_neg hab] at h1
                rw [if_neg hbc] at h2
                exact ih bs cs h1 h2

theorem strLe_of_strLt (y x : String) (h : strLt y x = true) : strLe y x = true := by
  unfold strLe strLt at *
  rw [strLtL_asymm _ _ h]
  rfl

theorem strLe_of_not_strLt (y x : String) (h : strLt y x = false) :
    strLe x y = true := by
  unfold strLe
  rw [h]
  rfl

theorem strLe_trans (x y z : String) (h1 : strLe x y = true)
    (h2 : strLe y z = true) : strLe x z = true := by
  unfold strLe strLt at *
  have h1f : strLtL y.data x.data = false := by
    cases hv : strLtL y.data x.data
    · rfl
    · rw [hv] at h1; simp at h1
  have h2f : strLtL z.data y.data = false := by
    cases hv : strLtL z.data y.data
    · rfl
    · rw [hv] at h2; simp at h2
  rw [strLtL_le_trans x.data y.data z.data h1f h2f]
  rfl

theorem mem_pyInsert (z x : String) (l : List String) (h : z ∈ pyInsert x l) :
    z = x ∨ z ∈ l := by
  induction l with
  | nil => simpa [pyInsert] using h
  | cons y ys ih =>
    cases hlt : strLt y x with
    | true =>
      rw [show pyInsert x (y :: ys) = y :: pyInsert x ys from by
        simp [pyInsert, hlt]] at h
      rcases List.mem_cons.mp h with rfl | h2
      · exact Or.inr (List.mem_cons_self _ _)
      · rcases ih h2 with h3 | h3
        · exact Or.inl h3
        · exact Or.inr (List.mem_cons_of_mem _ h3)
    | false =>
      rw [show pyInsert x (y :: ys) = x :: y :: ys from by
        simp [pyInsert, hlt]] at h
      rcases List.mem_cons.mp h with rfl | h2
      · exact Or.inl rfl
      · exact Or.inr h2

theorem pairwise_pyInsert (x : String) (l : List String)
    (h : l.Pairwise (fun a b => strLe a b = true)) :
    (pyInsert x l).Pairwise (fun a b => strLe a b = true) := by
  induction l with
  | nil => simp [pyInsert]
  | cons y ys ih =>
    rcases List.pairwise_cons.mp h with ⟨hy, hys⟩
    cases hlt : strLt y x with
    | true =>
      rw [show pyInsert x (y :: ys) = y :: pyInsert x ys from by
        simp [pyInsert, hlt]]
      refine List.pairwise_cons.mpr ⟨?_, ih hys⟩
      intro z hz
      rcases mem_pyInsert z x ys hz with rfl | hzys
      · exact strLe_of_strLt y z hlt
      · exact hy z hzys
    | false =>
      rw [show pyInsert x (y :: ys) = x :: y :: ys from by
        simp [pyInsert, hlt]]
      refine List.pairwise_cons.mpr ⟨?_, h⟩
      intro z hz
      rcases List.mem_cons.mp hz with rfl | hzys
      · exact strLe_of_not_strLt _ _ hlt
      · exact strLe_trans x y z (strLe_of_not_strLt y x hlt) (hy z hzys)

theorem pairwise_pySorted (l : List String) :
    (pySorted l).Pairwise (fun a b => strLe a b = true) := by
  induction l with
  | nil => simp [pySorted]
  | cons a l ih => exact pairwise_pyInsert a (pySorted l) ih

theorem pyInsert_perm (x : String) (l : List String) :
    (pyInsert x l).Perm (x :: l) := by
  induction l with
  | nil => exact List.Perm.refl _
  | cons y ys ih =>
    cases hlt : strLt y x with
    | true =>
      rw [show pyInsert x (y :: ys) = y :: pyInsert x ys from by
        simp [pyInsert, hlt]]
      exact (List.Perm.cons y ih).trans (List.Perm.swap x y ys)
    | false =>
      rw [show pyInsert x (y :: ys) = x :: y :: ys from by
        simp [pyInsert, hlt]]

theorem pySorted_perm (l : List String) : (pySorted l).Perm l := by
  induction l with
  | nil => exact List.Perm.refl _
  | cons a l ih => exact (pyInsert_perm a (pySorted l)).trans (List.Perm.cons a ih)

theorem pyEnum_length : ∀ (n : Nat) (l : List String), (pyEnum n l).length = l.length := by
  intro n l
  induction l generalizing n with
  | nil => rfl
  | cons a l ih => simp [pyEnum, ih]

theorem handleApp_name (aa : String) (d : Dict) (i : Nat) (n : String)
    (st : FileState) : (handleApp aa d i n st).name = n := by
  unfold handleApp
  cases body_app aa d i n st <;> rfl

theorem handleNew_name (aa album : String) (d : Dict) (n : String)
    (st : FileState) : (handleNew aa album d n st).name = n := by
  unfold handleNew
  cases body_new aa album d n st <;> rfl

theorem runPass_app_names (aa : String) (d : Dict) (fs : String → FileState) :
    ∀ (n : Nat) (l : List String),
      ((pyEnum n l).map (fun p => handleApp aa d p.1 p.2 (fs p.2))).map
        Outcome.name = l := by
  intro n l
  induction l generalizing n with
  | nil => rfl
  | cons a l ih => simp [pyEnum, handleApp_name, ih]

/-- C7 (amended): the app.py pass visits the audio files of the listing in
lexicographic filename order (its per-file outcome names are sorted and a
permutation of the filtered listing); the app_new pass instead visits them
in directory-listing order, which need not be sorted (see the
counterexample). -/
theorem C7_processing_order (aa : String) (tracks : List String)
    (listing : List String) (fs : String → FileState) :
    ((runPass_app aa tracks listing fs).map Outcome.name).Pairwise
        (fun a b => strLe a b = true) ∧
    ((runPass_app aa tracks listing fs).map Outcome.name).Perm
        (listing.filter isAudioName) := by
  have hnames : (runPass_app aa tracks listing fs).map Outcome.name
      = pySorted (listing.filter isAudioName) :=
    runPass_app_names aa (buildIndexApp tracks) fs 1
      (pySorted (listing.filter isAudioName))
  rw [hnames]
  exact ⟨pairwise_pySorted _, pySorted_perm _⟩

/-- C7 counterexample: the app_new pass processes files in listing order,
which differs from the lexicographic order on a two-file listing. -/
theorem C7_counterexample :
    ((runPass_new "A" "B" [] ["b.mp3", "a.mp3"]
        (fun _ => ({} : FileState))).map Outcome.name) = ["b.mp3", "a.mp3"] ∧
    pySorted ["b.mp3", "a.mp3"] = ["a.mp3", "b.mp3"] ∧
    (["b.mp3", "a.mp3"] : List String) ≠ ["a.mp3", "b.mp3"] :=
  ⟨by decide, by decide, by decide⟩

/-- C8: per-file failures are contained: changing the state of one file
changes neither the number of outcomes nor the outcome of any other file; an
unreadable file yields its own failure diagnostic at its own position; and
the app.py pass likewise produces one outcome per audio file. -/
theorem C8_per_file_errors_contained (aa album : String) (tracks : List String)
    (listing : List String) (fs fs2 : String → FileState) (n : String)
    (hfs : ∀ m, m ≠ n → fs2 m = fs m) :
    (runPass_new aa album tracks listing fs2).length
        = (listing.filter isAudioName).length ∧
    (∀ (i : Nat) (m : String), (listing.filter isAudioName)[i]? = some m →
      m ≠ n →
      (runPass_new aa album tracks listing fs2)[i]?
        = (runPass_new aa album tracks listing fs)[i]?) ∧
    (∀ (i : Nat) (m : String), (listing.filter isAudioName)[i]? = some m →
      (fs m).readable = false →
      (runPass_new aa album tracks listing fs)[i]? = some (Outcome.failed m)) ∧
    (runPass_app aa tracks listing fs).length
        = (listing.filter isAudioName).length := by
  refine ⟨?_, ?_, ?_, ?_⟩
  · exact List.length_map _ _
  · intro i m hi hm
    show ((listing.filter isAudioName).map
        (fun x => handleNew aa album (buildIndexNew tracks) x (fs2 x)))[i]?
      = ((listing.filter isAudioName).map
        (fun x => handleNew aa album (buildIndexNew tracks) x (fs x)))[i]?
    rw [List.getElem?_map, List.getElem?_map, hi]
    simp [hfs m hm]
  · intro i m hi hr
    show ((listing.filter isAudioName).map
        (fun x => handleNew aa album (buildIndexNew tracks) x (fs x)))[i]?
      = some (Outcome.failed m)
    rw [List.getElem?_map, hi]
    simp [handleNew, body_new, hr]
  · show ((pyEnum 1 (pySorted (listing.filter isAudioName))).map _).length = _
    rw [List.length_map, pyEnum_length]
    exact (pySorted_perm _).length_eq

/-- C8 witness: the diagnostic part applied to a concrete folder with an
unreadable first file. -/
theorem C8_witness :
    (runPass_new "A" "B" [] ["a.mp3", "b.mp3"]
        (fun _ => ({ readable := false } : FileState)))[0]?
      = some (Outcome.failed "a.mp3") :=
  (C8_per_file_errors_contained "A" "B" [] ["a.mp3", "b.mp3"]
    (fun _ => ({ readable := false } : FileState))
    (fun _ => ({ readable := false } : FileState)) "zzz"
    (fun _ _ => rfl)).2.2.1 0 "a.mp3" (by decide) (by decide)

/-- C1 (amended): in the app_new pass a file for which no lookup succeeds
keeps its pre-existing track-number tag (the written tags differ only in
title, artist, album and album-artist); the app.py pass instead overwrites
the track number with a sequential fallback index (see the
counterexample). -/
theorem C1_track_number_preserved_app_new (aa album : String) (d : Dict)
    (name : String) (st : FileState)
    (hr : st.readable = true) (hw : st.writable = true)
    (hm : pyTruthy (lookupNew d (clean_title (st.tags.title.getD (stem name)))
        (st.tags.title.getD (stem name))) = false) :
    ∃ t2 : Tags, body_new aa album d name st = Except.ok t2 ∧
      t2.tracknumber = st.tags.tracknumber := by
  simp only [body_new, hr, hw, if_true]
  cases ht : lookupNew d (clean_title (st.tags.title.getD (stem name)))
      (st.tags.title.getD (stem name)) with
  | none => exact ⟨_, rfl, rfl⟩
  | some v =>
    have hv : (v != 0) = false := by
      rw [ht] at hm
      simpa [pyTruthy] using hm
    simp only [hv, Bool.false_eq_true, if_false]
    exact ⟨_, rfl, rfl⟩

/-- C1 witness: the preservation theorem applied to a concrete file with a
pre-existing track number and an empty index. -/
theorem C1_witness :
    ∃ t2 : Tags, body_new "A" "B" [] "x.mp3"
        { readable := true
          tags := { title := some "Mystery Song", tracknumber := some "7" }
          writable := true }
      = Except.ok t2 ∧
      t2.tracknumber
        = ({ title := some "Mystery Song", tracknumber := some "7" } : Tags).tracknumber :=
  C1_track_number_preserved_app_new "A" "B" [] "x.mp3"
    { readable := true
      tags := { title := some "Mystery Song", tracknumber := some "7" }
      writable := true }
    rfl rfl (by decide)

/-- C1 counterexample: the app.py pass overwrites a pre-existing track
number with the sequential fallback index when no lookup succeeds, so the
claim fails for that variant. -/
theorem C1_counterexample :
    runPass_app "A" [] ["x.mp3"]
        (fun _ => ({ readable := true
                     tags := { title := some "Mystery Song", tracknumber := some "7" }
                     writable := true } : FileState))
      = [Outcome.updated "x.mp3"
          { title := some "Mystery Song"
            albumartist := some "A"
            artist := none
            album := none
            tracknumber := some "1" }] ∧
    (("1" : String)) ≠ "7" :=
  ⟨by decide, by decide⟩

end MusicDL
